import Mathlib

/-!
Verification development for the `completed-task-display` Obsidian plugin.

The repository contains two strategies for hiding completed checklist items:

* a selector-based strategy (`src/main.ts`): `buildDynamicCss` turns the
  persisted settings into a CSS rule string; the settings are loaded and
  saved by `loadSettings` / `saveSettings`, and `toggleCompletedTaskView`
  is the single user-facing state transition;
* a decoration-based strategy (the revision in `src/unnamed/part_001`,
  second document): `buildLineDecorations` scans the document text and
  produces replace decorations for completed task lines and, when
  `hideSubBullets` is set, for the more-deeply-indented lines after them.

Everything below is a shallow embedding of that TypeScript code: strings
are Lean `String`s, JS arrays are Lean `List`s, dynamically typed persisted
values are an explicit sum type, and an `async` function that can reject is
an `Except`-valued function.
-/

/-! ## JavaScript string primitives used by the plugin -/

/-- Whitespace test matching the JavaScript `\s` character class (and the
characters removed by `String.prototype.trim`), restricted to the
characters that can realistically occur in settings symbols and document
lines: space, tab, line feed, vertical tab, form feed, carriage return and
no-break space. -/
def jsIsWs (c : Char) : Bool :=
  c = ' ' || c = '\t' || c = '\n' || c = '\x0B' || c = '\x0C' || c = '\r' || c = ' '

/-- Embedding of JavaScript `String.prototype.trim`: removes leading and
trailing whitespace characters. -/
def jsTrim (s : String) : String :=
  String.mk (((s.data.dropWhile jsIsWs).reverse.dropWhile jsIsWs).reverse)

/-- Embedding of a single-character global regex replacement
`str.replace(/c/g, repl)`: every occurrence of the character `c` is
replaced by the character list `repl`, all other characters are kept. -/
def replaceCharL (c : Char) (repl : List Char) : List Char → List Char
  | [] => []
  | x :: rest => (if x = c then repl else [x]) ++ replaceCharL c repl rest

/-- Embedding of `escapeCssValue` from `src/main.ts` line 37:
`val.replace(/\\/g, "\\\\").replace(/\"/g, '\\"')` — first every backslash
is doubled, then every double quote is prefixed with a backslash. -/
def escapeCssValue (val : String) : String :=
  String.mk (replaceCharL '"' ['\\', '"'] (replaceCharL '\\' ['\\', '\\'] val.data))

/-- Scanner formalising "the attribute-value token does not terminate
early": reading the body of a double-quoted CSS attribute value, a
backslash escapes the following character (so the pair is consumed), an
unescaped double quote would terminate the token early (`false`), and a
trailing lone backslash would escape the closing delimiter and extend the
token past it (`false`). A character list passing this scan stays entirely
inside one attribute-value token. -/
def cssTokenScan : List Char → Bool
  | [] => true
  | c :: rest =>
    if c = '\\' then
      match rest with
      | [] => false
      | _ :: r2 => cssTokenScan r2
    else if c = '"' then false
    else cssTokenScan rest

/-! ## Selector-based strategy (`src/main.ts`) -/

/-- Embedding of the `TaskHiderSettings` interface of `src/main.ts`.
The `invertRule` field is optional (`invertRule?: boolean`), hence an
`Option Bool`; `none` models an absent field which the code reads through
`!!this.settings.invertRule`. -/
structure TaskHiderSettings where
  hiddenState : Bool
  incompleteSymbols : List String
  invertRule : Option Bool
deriving DecidableEq, Repr

/-- Embedding of `DEFAULT_SETTINGS` from `src/main.ts` lines 9-13. -/
def DEFAULT_SETTINGS : TaskHiderSettings :=
  { hiddenState := true, incompleteSymbols := [], invertRule := some false }

/-- Embedding of `src/main.ts` line 36: the effective exception list
`(this.settings.incompleteSymbols || []).map(s => s.trim()).filter(Boolean)`
— every symbol is trimmed and entries that are empty after trimming are
dropped. -/
def trimFilter (syms : List String) : List String :=
  (syms.map jsTrim).filter (fun x => decide (x ≠ ""))

/-- Marker-level denotation of one generated selector of `buildDynamicCss`.
A selector of the normal mode, for instance
`.HyperMD-task-line[data-task]:not([data-task=" "]):not([data-task="v"])…`,
matches a task element exactly when its `data-task` marker differs from
every listed value (`notIn`); a selector of the invert mode, for instance
`.HyperMD-task-line[data-task="v"]`, matches exactly when the marker equals
the one listed value (`eqVal`). -/
inductive TaskRule where
  | notIn (vals : List String)
  | eqVal (v : String)
deriving DecidableEq, Repr

/-- Matching a task element whose `data-task` marker is `m` against the
marker-level condition of one generated selector. -/
def TaskRule.matches : TaskRule → String → Bool
  | .notIn vals, m => vals.all (fun v => decide (m ≠ v))
  | .eqVal v, m => decide (m = v)

/-- Marker-level denotation of the source-view selectors generated by
`buildDynamicCss` (`src/main.ts` lines 42-71), one `TaskRule` per pushed
selector (CM5 and CM6 carry the same marker condition). In normal mode one
selector per editor surface is pushed, excluding the blank marker and every
exception; in invert mode one selector per exception symbol is pushed per
surface, and none when the exception list is empty. -/
def sourceViewRules (s : TaskHiderSettings) : List TaskRule :=
  let exc := trimFilter s.incompleteSymbols
  let includeUnchecked := " " :: exc
  if (s.invertRule.getD false) = false then
    [TaskRule.notIn includeUnchecked, TaskRule.notIn includeUnchecked]
  else
    exc.map TaskRule.eqVal ++ exc.map TaskRule.eqVal

/-- Truth of "the generated rule set hides a task item whose marker is
`m`": some generated selector matches the item. -/
def hidesMarker (s : TaskHiderSettings) (m : String) : Bool :=
  (sourceViewRules s).any (fun r => r.matches m)

/-- Embedding of the selector string `[data-task="${escapeCssValue(s)}"]`
built on `src/main.ts` line 38. -/
def attrSelector (v : String) : String :=
  "[data-task=\"" ++ escapeCssValue v ++ "\"]"

/-- Embedding of `exceptionOnly` from `src/main.ts` line 38. -/
def exceptionOnly (s : TaskHiderSettings) : List String :=
  (trimFilter s.incompleteSymbols).map attrSelector

/-- Embedding of `buildDynamicCss` from `src/main.ts` lines 32-76,
producing the same CSS text: normal mode excludes the blank marker and the
exception symbols on all four surfaces, invert mode returns the empty
string for an empty exception list and otherwise hides exactly the listed
symbols. -/
def buildDynamicCss (s : TaskHiderSettings) : String :=
  let excOnly := exceptionOnly s
  let includeUnchecked := "[data-task=\" \"]" :: excOnly
  let invert := s.invertRule.getD false
  let selectors : List String :=
    if invert = false then
      (".markdown-source-view .HyperMD-task-line[data-task]" ++
        String.join (includeUnchecked.map (fun n => ":not(" ++ n ++ ")"))) ::
      (".markdown-source-view.mod-cm6 .cm-line:has(.cm-formatting-task[data-task])" ++
        String.join (includeUnchecked.map
          (fun n => ":not(:has(.cm-formatting-task" ++ n ++ "))"))) ::
      ([".markdown-preview-view", ".markdown-reading-view"].map
        (fun c => c ++ " ul > li.task-list-item.is-checked" ++
          String.join (includeUnchecked.map (fun n => ":not(" ++ n ++ ")"))))
    else
      (excOnly.map (fun n => ".markdown-source-view .HyperMD-task-line" ++ n)) ++
      (excOnly.map
        (fun n => ".markdown-source-view.mod-cm6 .cm-line:has(.cm-formatting-task" ++ n ++ ")")) ++
      (([".markdown-preview-view", ".markdown-reading-view"].map
        (fun c => excOnly.map (fun n => c ++ " ul > li.task-list-item" ++ n))).flatten)
  if invert = true ∧ excOnly = [] then ""
  else if selectors = [] then ""
  else
    String.intercalate ", " (selectors.map (fun sel => "body.hide-completed-tasks " ++ sel)) ++
      " \x7b display: none; \x7d"

/-! ## Settings persistence (`src/main.ts` lines 88-107) -/

/-- Dynamically typed persisted field value: a JSON boolean, a JSON array
(whose elements the code never validates beyond `Array.isArray`, here
modelled as strings since that is what the plugin ever writes), or any
other value. -/
inductive JsVal where
  | jsBool (b : Bool)
  | jsArr (l : List String)
  | jsOther
deriving DecidableEq, Repr

/-- Raw persisted blob as read back by `this.loadData()`: each key of the
settings shape is either absent (`none`) or holds a dynamically typed
value. -/
structure RawBlob where
  hiddenState : Option JsVal
  incompleteSymbols : Option JsVal
  invertRule : Option JsVal
deriving DecidableEq, Repr

/-- Embedding of `saveSettings` (`src/main.ts` lines 88-92) restricted to
the written blob: `this.saveData({ ...this.settings })` writes every
settings field with its runtime type; an absent optional `invertRule`
stays absent. -/
def blobOfSettings (s : TaskHiderSettings) : RawBlob :=
  { hiddenState := some (JsVal.jsBool s.hiddenState),
    incompleteSymbols := some (JsVal.jsArr s.incompleteSymbols),
    invertRule := s.invertRule.map JsVal.jsBool }

/-- Embedding of `loadSettings` from `src/main.ts` lines 94-107 applied to
an already-read blob (`none` models a falsy `data`): each field keeps its
stored value when it passes its type test (`typeof … === 'boolean'`,
`Array.isArray`) and otherwise falls back to the default of that field. -/
def loadSettings : Option RawBlob → TaskHiderSettings
  | none => DEFAULT_SETTINGS
  | some d =>
      { hiddenState :=
          match d.hiddenState with
          | some (JsVal.jsBool b) => b
          | _ => DEFAULT_SETTINGS.hiddenState,
        incompleteSymbols :=
          match d.incompleteSymbols with
          | some (JsVal.jsArr l) => l
          | _ => DEFAULT_SETTINGS.incompleteSymbols,
        invertRule :=
          match d.invertRule with
          | some (JsVal.jsBool b) => some b
          | _ => DEFAULT_SETTINGS.invertRule }

/-- Embedding of `loadSettings` including the underlying read: the body of
`loadSettings` in `src/main.ts` starts with `const data = await
this.loadData();` outside any try/catch, so a rejected read propagates to
the caller; `Except.error` models that rejection. -/
def loadSettingsResult : Except Unit (Option RawBlob) → Except Unit TaskHiderSettings
  | Except.error e => Except.error e
  | Except.ok d => Except.ok (loadSettings d)

/-- Embedding of `loadHiddenState` from the legacy revision
(`src/unnamed/part_000` lines 25-35): the read is wrapped in try/catch, a
failure resets the state to the default `true`, and a well-typed stored
boolean is taken over. -/
def loadHiddenState : Except Unit (Option RawBlob) → Bool
  | Except.error _ => true
  | Except.ok none => true
  | Except.ok (some d) =>
      match d.hiddenState with
      | some (JsVal.jsBool b) => b
      | _ => true

/-- Raw persisted blob for the `src/unnamed/part_001` revisions, whose
settings shape is `{hiddenState, showStatusBar, hideSubBullets}`: each
key is either absent (`none`) or holds a dynamically typed value. -/
structure DecoRawBlob where
  hiddenState : Option JsVal
  showStatusBar : Option JsVal
  hideSubBullets : Option JsVal
deriving DecidableEq, Repr

/-- Result type of the `Object.assign`-based load of
`src/unnamed/part_001`: the merge copies blob values without any type
check, so each field of the loaded object holds whatever dynamically
typed value was stored (or the default for an absent key). -/
structure DecoLoadedSettings where
  hiddenState : JsVal
  showStatusBar : JsVal
  hideSubBullets : JsVal
deriving DecidableEq, Repr

/-- Embedding of `loadSettings` from `src/unnamed/part_001` lines 48-50:
`Object.assign({}, DEFAULT_SETTINGS, await this.loadData())`. Every own
property present on the read blob overwrites the corresponding default
with NO type checking at all; only absent keys fall back to the defaults
`{hiddenState: true, showStatusBar: true, hideSubBullets: false}`; a
falsy read (`null`) leaves every default in place. -/
def loadSettingsAssign : Option DecoRawBlob → DecoLoadedSettings
  | none => ⟨JsVal.jsBool true, JsVal.jsBool true, JsVal.jsBool false⟩
  | some d =>
      ⟨d.hiddenState.getD (JsVal.jsBool true),
       d.showStatusBar.getD (JsVal.jsBool true),
       d.hideSubBullets.getD (JsVal.jsBool false)⟩

/-- Embedding of the `src/unnamed/part_001` `loadSettings` including the
underlying read: `await this.loadData()` sits outside any try/catch
inside `loadSettings` itself (only the caller `onload` catches), so a
rejected read propagates out of `loadSettings`. -/
def loadSettingsAssignResult :
    Except Unit (Option DecoRawBlob) → Except Unit DecoLoadedSettings
  | Except.error e => Except.error e
  | Except.ok d => Except.ok (loadSettingsAssign d)

/-! ## The toggle state machine (`src/main.ts` lines 25-30, 88-92) -/

/-- Observable state touched by `toggleCompletedTaskView`: the in-memory
settings, the `hide-completed-tasks` body class, the status-bar text, the
persisted blob and the injected dynamic CSS text. -/
structure PluginState where
  settings : TaskHiderSettings
  bodyClassHidden : Bool
  statusText : String
  persisted : Option RawBlob
  dynamicCss : String
deriving DecidableEq, Repr

/-- Embedding of `toggleCompletedTaskView` (`src/main.ts` lines 25-30):
flip `hiddenState`, toggle the body class to the new state, set the status
text, then `saveSettings` persists the settings and re-applies the dynamic
CSS. -/
def toggleCompletedTaskView (st : PluginState) : PluginState :=
  let s1 : TaskHiderSettings :=
    { st.settings with hiddenState := ! st.settings.hiddenState }
  { settings := s1,
    bodyClassHidden := s1.hiddenState,
    statusText :=
      if s1.hiddenState then "Hiding Completed Tasks" else "Showing Completed Tasks",
    persisted := some (blobOfSettings s1),
    dynamicCss := buildDynamicCss s1 }

/-! ## Decoration-based strategy (`src/unnamed/part_001`, second document) -/

/-- Embedding of the `TaskHiderSettings` interface of the decoration-based
revision. -/
structure DecoSettings where
  hiddenState : Bool
  showStatusBar : Bool
  hideSubBullets : Bool
deriving DecidableEq, Repr

/-- Embedding of `getIndentLevelFromText` (`src/unnamed/part_001` lines
401-408): take the leading whitespace (`/^(\s*)/`), expand each tab to
four spaces, and return the length. -/
def getIndentLevelFromText (text : String) : Nat :=
  ((text.data.takeWhile jsIsWs).map (fun c => if c = '\t' then 4 else 1)).sum

/-- Test for the checkbox token `\[(x|X)\]` of the completed-task regex at
the start of a character list: an opening bracket, exactly `x` or `X`, and
a closing bracket. -/
def startsWithToken (l : List Char) : Bool :=
  match l with
  | c0 :: c1 :: c2 :: _ => c0 = '[' && (c1 = 'x' || c1 = 'X') && c2 = ']'
  | _ => false

/-- Embedding of the completed-task test on `src/unnamed/part_001` line
449: `/^(\s*[-*+])\s+\[(x|X)\]/.test(lineText)` — optional leading
whitespace, one bullet character `-`, `*` or `+`, at least one whitespace
character (the `\s+` is greedy, and the following `[` is not whitespace,
so it consumes exactly the whitespace run), then literally `[x]` or
`[X]`. -/
def isCompletedTask (text : String) : Bool :=
  match text.data.dropWhile jsIsWs with
  | [] => false
  | b :: rest =>
      (b = '-' || b = '*' || b = '+') &&
      (match rest with
       | [] => false
       | c :: _ => jsIsWs c) &&
      startsWithToken (rest.dropWhile jsIsWs)

/-- Embedding of the inner sub-bullet loop of `buildLineDecorations`
(`src/unnamed/part_001` lines 461-488): scanning the lines after a
completed task line of indentation `taskIndent`, a whitespace-only line is
skipped by `continue` (no decoration is added for it), the first remaining
line of indentation at most `taskIndent` stops the scan, and every other
line is hidden. The first argument of the scan position is the (1-based)
line number of the first scanned line. -/
def subBullets (taskIndent : Nat) : Nat → List String → List Nat
  | _, [] => []
  | idx, t :: rest =>
    if jsTrim t = "" then subBullets taskIndent (idx + 1) rest
    else if getIndentLevelFromText t ≤ taskIndent then []
    else idx :: subBullets taskIndent (idx + 1) rest

/-- Outer loop of `buildLineDecorations` (`src/unnamed/part_001` lines
444-490) over the remaining lines, carrying the (1-based) number of the
first remaining line: every completed task line is hidden and, when
`hideSubBullets` is set, its sub-bullet block is hidden as well. -/
def buildLineDecorationsGo (hideSub : Bool) : Nat → List String → List Nat
  | _, [] => []
  | i, t :: rest =>
    if isCompletedTask t then
      i :: ((if hideSub then subBullets (getIndentLevelFromText t) (i + 1) rest else []) ++
        buildLineDecorationsGo hideSub (i + 1) rest)
    else buildLineDecorationsGo hideSub (i + 1) rest

/-- Embedding of `buildLineDecorations` (`src/unnamed/part_001` lines
433-493) at the level of hidden line numbers: the document is its list of
lines (numbered from 1 as in `doc.line(lineNum)`), and the resulting list
collects the line numbers for which a replace decoration is added. When
`hiddenState` is false the function returns `Decoration.none`, that is, no
hidden line. -/
def buildLineDecorations (s : DecoSettings) (doc : List String) : List Nat :=
  if s.hiddenState then buildLineDecorationsGo s.hideSubBullets 1 doc else []

/-! ## Spec-side matchers for claim C7 (refinement comparison) -/

/-- Spec-side completed-task-line predicate following the specification's
words literally: optional leading whitespace, a list-bullet marker (`-`,
`*`, or `+`), one or more SPACES, then a checkbox token containing exactly
`x` or `X` between brackets. This is the comparison definition for the
refinement claim; the source regex is embedded by `isCompletedTask`. -/
def SpecCompletedSpaces (text : String) : Prop :=
  ∃ (w sp tl : List Char) (b m : Char),
    text.data = w ++ b :: (sp ++ '[' :: m :: ']' :: tl) ∧
    (∀ c ∈ w, jsIsWs c = true) ∧
    (b = '-' ∨ b = '*' ∨ b = '+') ∧
    sp ≠ [] ∧ (∀ c ∈ sp, c = ' ') ∧
    (m = 'x' ∨ m = 'X')

/-- Amended spec-side completed-task-line predicate: identical to
`SpecCompletedSpaces` except that the separator after the bullet is one or
more WHITESPACE characters (the `\s+` of the source regex) rather than
spaces only. -/
def SpecCompletedWs (text : String) : Prop :=
  ∃ (w sp tl : List Char) (b m : Char),
    text.data = w ++ b :: (sp ++ '[' :: m :: ']' :: tl) ∧
    (∀ c ∈ w, jsIsWs c = true) ∧
    (b = '-' ∨ b = '*' ∨ b = '+') ∧
    sp ≠ [] ∧ (∀ c ∈ sp, jsIsWs c = true) ∧
    (m = 'x' ∨ m = 'X')

/-! ## Helper lemmas -/

/-- Head of a `dropWhile` result never satisfies the predicate. -/
theorem dropWhile_head_false {α : Type} (p : α → Bool) :
    ∀ (l rest : List α) (c : α), l.dropWhile p = c :: rest → p c = false := by
  intro l
  induction l with
  | nil => intro rest c h; simp [List.dropWhile] at h
  | cons a t ih =>
    intro rest c h
    by_cases ha : p a = true
    · rw [List.dropWhile_cons_of_pos ha] at h
      exact ih rest c h
    · rw [List.dropWhile_cons_of_neg (by simpa using ha)] at h
      injection h with h1 h2
      subst h1
      simpa using ha

/-- Trimming never yields the one-character blank string, because a
nonempty trim result starts with a non-whitespace character. -/
theorem jsTrim_ne_blank (s : String) : jsTrim s ≠ " " := by
  intro h
  have hblank : (" " : String).data = [' '] := rfl
  have hd : (((s.data.dropWhile jsIsWs).reverse.dropWhile jsIsWs).reverse) = [' '] := by
    have h2 := congrArg String.data h
    simpa [jsTrim, hblank] using h2
  have h3 : ((s.data.dropWhile jsIsWs).reverse.dropWhile jsIsWs) = [' '] := by
    have h4 := congrArg List.reverse hd
    simpa using h4
  have h5 := dropWhile_head_false jsIsWs _ _ _ h3
  simp [jsIsWs] at h5

/-- Members of the effective exception list are nonempty trim results. -/
theorem mem_trimFilter {x : String} {syms : List String} (h : x ∈ trimFilter syms) :
    x ≠ "" ∧ ∃ y ∈ syms, x = jsTrim y := by
  unfold trimFilter at h
  rw [List.mem_filter] at h
  obtain ⟨hmem, hne⟩ := h
  rw [List.mem_map] at hmem
  obtain ⟨y, hy, rfl⟩ := hmem
  exact ⟨by simpa using hne, y, hy, rfl⟩

/-- No member of the effective exception list is the blank marker. -/
theorem trimFilter_ne_blank {x : String} {syms : List String} (h : x ∈ trimFilter syms) :
    x ≠ " " := by
  obtain ⟨-, y, -, rfl⟩ := mem_trimFilter h
  exact jsTrim_ne_blank y

/-- Dropping while a predicate holds skips a fully-satisfying prefix. -/
theorem dropWhile_append_all {p : Char → Bool} :
    ∀ (w l : List Char), (∀ c ∈ w, p c = true) → (w ++ l).dropWhile p = l.dropWhile p := by
  intro w
  induction w with
  | nil => intro l _; rfl
  | cons a t ih =>
    intro l hw
    have ha : p a = true := hw a (by simp)
    rw [List.cons_append, List.dropWhile_cons_of_pos ha]
    exact ih l (fun c hc => hw c (by simp [hc]))

/-- Character replacement distributes over list append. -/
theorem replaceCharL_append (c : Char) (repl : List Char) (a b : List Char) :
    replaceCharL c repl (a ++ b) = replaceCharL c repl a ++ replaceCharL c repl b := by
  induction a with
  | nil => simp [replaceCharL]
  | cons x t ih => simp [replaceCharL, ih]

/-- Marker-level meaning of the normal-mode rule set: hidden exactly when
the marker is not blank and not one of the effective exception symbols. -/
theorem hidesMarker_normal (s : TaskHiderSettings)
    (h : s.invertRule.getD false = false) (m : String) :
    hidesMarker s m = true ↔ (m ≠ " " ∧ m ∉ trimFilter s.incompleteSymbols) := by
  have hrules : sourceViewRules s =
      [TaskRule.notIn (" " :: trimFilter s.incompleteSymbols),
       TaskRule.notIn (" " :: trimFilter s.incompleteSymbols)] := by
    simp [sourceViewRules, h]
  rw [hidesMarker, hrules, List.any_eq_true]
  constructor
  · rintro ⟨r, hr, hmatch⟩
    simp only [List.mem_cons, List.not_mem_nil, or_false] at hr
    have hr2 : r = TaskRule.notIn (" " :: trimFilter s.incompleteSymbols) := by
      rcases hr with h1 | h1 <;> exact h1
    subst hr2
    simp only [TaskRule.matches, List.all_cons, List.all_eq_true, Bool.and_eq_true,
      decide_eq_true_eq] at hmatch
    obtain ⟨h1, h2⟩ := hmatch
    exact ⟨h1, fun hm => (h2 m hm) rfl⟩
  · rintro ⟨h1, h2⟩
    refine ⟨TaskRule.notIn (" " :: trimFilter s.incompleteSymbols), by simp, ?_⟩
    simp only [TaskRule.matches, List.all_cons, List.all_eq_true, Bool.and_eq_true,
      decide_eq_true_eq]
    exact ⟨h1, fun v hv hmv => h2 (hmv ▸ hv)⟩

/-- Marker-level meaning of the invert-mode rule set: hidden exactly when
the marker is one of the effective exception symbols. -/
theorem hidesMarker_invert (s : TaskHiderSettings)
    (h : s.invertRule.getD false = true) (m : String) :
    hidesMarker s m = true ↔ m ∈ trimFilter s.incompleteSymbols := by
  have hrules : sourceViewRules s =
      (trimFilter s.incompleteSymbols).map TaskRule.eqVal ++
      (trimFilter s.incompleteSymbols).map TaskRule.eqVal := by
    simp [sourceViewRules, h]
  rw [hidesMarker, hrules, List.any_eq_true]
  constructor
  · rintro ⟨r, hr, hmatch⟩
    rw [List.mem_append] at hr
    have hr2 : ∃ v ∈ trimFilter s.incompleteSymbols, r = TaskRule.eqVal v := by
      rcases hr with h1 | h1 <;> · rw [List.mem_map] at h1
                                   obtain ⟨v, hv, he⟩ := h1
                                   exact ⟨v, hv, he.symm⟩
    obtain ⟨v, hv, rfl⟩ := hr2
    simp only [TaskRule.matches, decide_eq_true_eq] at hmatch
    exact hmatch ▸ hv
  · intro hm
    refine ⟨TaskRule.eqVal m, ?_, by simp [TaskRule.matches]⟩
    rw [List.mem_append]
    exact Or.inl (List.mem_map_of_mem TaskRule.eqVal hm)

/-- Every completed task line is collected by the outer decoration loop. -/
theorem mem_buildLineDecorationsGo (hideSub : Bool) :
    ∀ (doc : List String) (start i : Nat) (t : String),
      doc[i]? = some t → isCompletedTask t = true →
      (start + i) ∈ buildLineDecorationsGo hideSub start doc := by
  intro doc
  induction doc with
  | nil => intro start i t h _; simp at h
  | cons u rest ih =>
    intro start i t h hc
    cases i with
    | zero =>
      rw [List.getElem?_cons_zero] at h
      injection h with h1
      subst h1
      simp [buildLineDecorationsGo, hc]
    | succ j =>
      rw [List.getElem?_cons_succ] at h
      have hmem := ih (start + 1) j t h hc
      have harith : start + (j + 1) = (start + 1) + j := by omega
      rw [harith]
      cases hcu : isCompletedTask u with
      | true =>
        simp only [buildLineDecorationsGo, hcu, if_true, List.mem_cons, List.mem_append]
        exact Or.inr (Or.inr hmem)
      | false =>
        simp only [buildLineDecorationsGo, hcu, Bool.false_eq_true, if_false]
        exact hmem

/-- Scanning an escaped backslash pair continues with the remainder. -/
theorem cssTokenScan_pair_backslash (r : List Char) :
    cssTokenScan ('\\' :: '\\' :: r) = cssTokenScan r := by
  rw [cssTokenScan.eq_def]
  simp

/-- Scanning an escaped quote pair continues with the remainder. -/
theorem cssTokenScan_pair_quote (r : List Char) :
    cssTokenScan ('\\' :: '"' :: r) = cssTokenScan r := by
  rw [cssTokenScan.eq_def]
  simp

/-- Scanning an ordinary character continues with the remainder. -/
theorem cssTokenScan_cons_other {c : Char} (h1 : c ≠ '\\') (h2 : c ≠ '"') (r : List Char) :
    cssTokenScan (c :: r) = cssTokenScan r := by
  rw [cssTokenScan.eq_def]
  simp [h1, h2]

/-- Escaped values always scan as a single attribute-value token: after
`escapeCssValue` every character block is either an escaped pair or a
plain character that is neither a quote nor a backslash. -/
theorem cssTokenScan_escape (l : List Char) :
    cssTokenScan (replaceCharL '"' ['\\', '"'] (replaceCharL '\\' ['\\', '\\'] l)) = true := by
  induction l with
  | nil => rfl
  | cons x t ih =>
    by_cases hx : x = '\\'
    · subst hx
      have h1 : replaceCharL '"' ['\\', '"'] (replaceCharL '\\' ['\\', '\\'] ('\\' :: t)) =
          '\\' :: '\\' :: replaceCharL '"' ['\\', '"'] (replaceCharL '\\' ['\\', '\\'] t) := by
        simp [replaceCharL]
      rw [h1, cssTokenScan_pair_backslash]
      exact ih
    · by_cases hq : x = '"'
      · subst hq
        have h1 : replaceCharL '"' ['\\', '"'] (replaceCharL '\\' ['\\', '\\'] ('"' :: t)) =
            '\\' :: '"' :: replaceCharL '"' ['\\', '"'] (replaceCharL '\\' ['\\', '\\'] t) := by
          simp [replaceCharL]
        rw [h1, cssTokenScan_pair_quote]
        exact ih
      · have h1 : replaceCharL '"' ['\\', '"'] (replaceCharL '\\' ['\\', '\\'] (x :: t)) =
            x :: replaceCharL '"' ['\\', '"'] (replaceCharL '\\' ['\\', '\\'] t) := by
          simp [replaceCharL, hx, hq]
        rw [h1, cssTokenScan_cons_other hx hq]
        exact ih

/-! ## Claim C4 -/

/-- Claim C4 (amended): with `hiddenState` and `hideSubBullets` both true,
the hidden block scanned after a completed task line (`subBullets
taskIndent start rest`, where `rest` holds the lines after the task line
and `start` is the 1-based number of the first of them) contains exactly
the non-blank lines whose indentation strictly exceeds the task's, up to
the first non-blank line of indentation at most the task's; blank
(whitespace-only) lines never terminate the block, but they are skipped
by the scan and are NOT themselves hidden. -/
theorem c4_descendant_block (taskIndent : Nat) :
    ∀ (rest : List String) (start j : Nat),
      j ∈ subBullets taskIndent start rest ↔
        ∃ k u, rest[k]? = some u ∧ j = start + k ∧ jsTrim u ≠ "" ∧
          taskIndent < getIndentLevelFromText u ∧
          ∀ m v, m < k → rest[m]? = some v → jsTrim v ≠ "" →
            taskIndent < getIndentLevelFromText v := by
  intro rest
  induction rest with
  | nil =>
    intro start j
    simp [subBullets]
  | cons u rs ih =>
    intro start j
    by_cases hb : jsTrim u = ""
    · rw [subBullets, if_pos hb, ih (start + 1) j]
      constructor
      · rintro ⟨k, v, hget, hj, hnb, hind, hall⟩
        refine ⟨k + 1, v, by simpa using hget, by omega, hnb, hind, ?_⟩
        intro m w hm hget2 hnb2
        cases m with
        | zero =>
          rw [List.getElem?_cons_zero] at hget2
          injection hget2 with h
          subst h
          exact absurd hb hnb2
        | succ m2 =>
          rw [List.getElem?_cons_succ] at hget2
          exact hall m2 w (by omega) hget2 hnb2
      · rintro ⟨k, v, hget, hj, hnb, hind, hall⟩
        cases k with
        | zero =>
          rw [List.getElem?_cons_zero] at hget
          injection hget with h
          subst h
          exact absurd hb hnb
        | succ k2 =>
          rw [List.getElem?_cons_succ] at hget
          refine ⟨k2, v, hget, by omega, hnb, hind, ?_⟩
          intro m w hm hget2 hnb2
          exact hall (m + 1) w (by omega) (by simpa using hget2) hnb2
    · by_cases hle : getIndentLevelFromText u ≤ taskIndent
      · rw [subBullets, if_neg hb, if_pos hle]
        simp only [List.not_mem_nil, false_iff]
        rintro ⟨k, v, hget, hj, hnb, hind, hall⟩
        cases k with
        | zero =>
          rw [List.getElem?_cons_zero] at hget
          injection hget with h
          subst h
          omega
        | succ k2 =>
          have := hall 0 u (by omega) (by simp) hb
          omega
      · rw [subBullets, if_neg hb, if_neg hle, List.mem_cons, ih (start + 1) j]
        constructor
        · rintro (rfl | ⟨k, v, hget, hj, hnb, hind, hall⟩)
          · refine ⟨0, u, by simp, by omega, hb, by omega, ?_⟩
            intro m w hm _ _
            omega
          · refine ⟨k + 1, v, by simpa using hget, by omega, hnb, hind, ?_⟩
            intro m w hm hget2 hnb2
            cases m with
            | zero =>
              rw [List.getElem?_cons_zero] at hget2
              injection hget2 with h
              subst h
              omega
            | succ m2 =>
              rw [List.getElem?_cons_succ] at hget2
              exact hall m2 w (by omega) hget2 hnb2
        · rintro ⟨k, v, hget, hj, hnb, hind, hall⟩
          cases k with
          | zero =>
            rw [List.getElem?_cons_zero] at hget
            injection hget with h
            subst h
            left
            omega
          | succ k2 =>
            rw [List.getElem?_cons_succ] at hget
            right
            refine ⟨k2, v, hget, by omega, hnb, hind, ?_⟩
            intro m w hm hget2 hnb2
            exact hall (m + 1) w (by omega) (by simpa using hget2) hnb2

/-- Counterexample for claim C4 as stated: in the document
`["- [x] t", "  - a", "", "  - b"]` the blank line 3 lies strictly inside
the descendant block (line 4 is still hidden), yet the code does not hide
line 3 — blank lines inside the block are skipped, not hidden, contrary
to the claim that they "are themselves hidden when they fall before the
terminating line". -/
theorem c4_counterexample :
    4 ∈ buildLineDecorations ⟨true, true, true⟩ ["- [x] t", "  - a", "", "  - b"] ∧
    3 ∉ buildLineDecorations ⟨true, true, true⟩ ["- [x] t", "  - a", "", "  - b"] := by
  decide

/-! ## Claim C7 -/

/-- Counterexample for claim C7 as stated: the line with a TAB between the
bullet and the checkbox token is accepted by the code (the regex separator
is `\s+`, any whitespace), but it does not match the claim's wording
"one or more spaces". -/
theorem c7_counterexample :
    isCompletedTask "-\t[x] a" = true ∧ ¬ SpecCompletedSpaces "-\t[x] a" := by
  refine ⟨by decide, ?_⟩
  rintro ⟨w, sp, tl, b, m, heq, hw, hb, hspne, hsp, hm⟩
  have hdata : ("-\t[x] a").data = ['-', '\t', '[', 'x', ']', ' ', 'a'] := rfl
  rw [hdata] at heq
  cases w with
  | nil =>
    rw [List.nil_append] at heq
    injection heq with h1 h2
    cases sp with
    | nil => exact hspne rfl
    | cons c sp2 =>
      rw [List.cons_append] at h2
      injection h2 with h3 h4
      have hcs := hsp c (by simp)
      rw [← h3] at hcs
      exact absurd hcs (by decide)
  | cons c w2 =>
    rw [List.cons_append] at heq
    injection heq with h1 h2
    have hcw := hw c (by simp)
    rw [← h1] at hcw
    exact absurd hcw (by decide)

/-- Claim C7 (amended): a document line is a completed task line exactly
when it consists of optional leading whitespace, a list-bullet marker
`-`, `*` or `+`, one or more WHITESPACE characters (not only spaces, per
the regex `\s+`), then a bracketed checkbox token containing exactly `x`
or `X`; and a checkbox token containing `[o]` or `[X ]` (trailing space)
is never treated as completed. -/
theorem c7_completed_line_match :
    (∀ text : String, isCompletedTask text = true ↔ SpecCompletedWs text) ∧
    isCompletedTask "- [o] a" = false ∧ isCompletedTask "- [X ] a" = false := by
  refine ⟨?_, by decide, by decide⟩
  intro text
  constructor
  · intro h
    unfold isCompletedTask at h
    cases hd : text.data.dropWhile jsIsWs with
    | nil => rw [hd] at h; simp at h
    | cons b rest =>
      rw [hd] at h
      simp only [Bool.and_eq_true] at h
      obtain ⟨⟨hb, hmid⟩, htok⟩ := h
      cases rest with
      | nil => simp at hmid
      | cons c rest2 =>
        have hc : jsIsWs c = true := hmid
        cases hr : (c :: rest2).dropWhile jsIsWs with
        | nil => rw [hr] at htok; simp [startsWithToken] at htok
        | cons c0 r1 =>
          cases r1 with
          | nil => rw [hr] at htok; simp [startsWithToken] at htok
          | cons c1 r2 =>
            cases r2 with
            | nil => rw [hr] at htok; simp [startsWithToken] at htok
            | cons c2 tl =>
              rw [hr] at htok
              simp only [startsWithToken, Bool.and_eq_true, Bool.or_eq_true,
                decide_eq_true_eq] at htok
              obtain ⟨⟨h0, h1⟩, h2⟩ := htok
              subst h0
              subst h2
              refine ⟨text.data.takeWhile jsIsWs, (c :: rest2).takeWhile jsIsWs, tl, b, c1,
                ?_, ?_, ?_, ?_, ?_, ?_⟩
              · calc text.data
                    = text.data.takeWhile jsIsWs ++ text.data.dropWhile jsIsWs :=
                      (List.takeWhile_append_dropWhile jsIsWs text.data).symm
                  _ = text.data.takeWhile jsIsWs ++ (b :: (c :: rest2)) := by rw [hd]
                  _ = text.data.takeWhile jsIsWs ++
                      (b :: ((c :: rest2).takeWhile jsIsWs ++ (c :: rest2).dropWhile jsIsWs)) := by
                        rw [List.takeWhile_append_dropWhile]
                  _ = text.data.takeWhile jsIsWs ++
                      (b :: ((c :: rest2).takeWhile jsIsWs ++ ('[' :: c1 :: ']' :: tl))) := by
                        rw [hr]
              · intro ch hch
                exact List.mem_takeWhile_imp hch
              · simp only [Bool.or_eq_true, decide_eq_true_eq] at hb
                tauto
              · rw [List.takeWhile_cons_of_pos hc]
                simp
              · intro ch hch
                exact List.mem_takeWhile_imp hch
              · exact h1
  · rintro ⟨w, sp, tl, b, m, heq, hw, hb, hspne, hsp, hm⟩
    have hbws : jsIsWs b = false := by
      rcases hb with rfl | rfl | rfl <;> decide
    obtain ⟨c, sp2, rfl⟩ : ∃ c sp2, sp = c :: sp2 := by
      cases sp with
      | nil => exact absurd rfl hspne
      | cons c sp2 => exact ⟨c, sp2, rfl⟩
    have hcws : jsIsWs c = true := hsp c (by simp)
    have hd2 : text.data.dropWhile jsIsWs = b :: ((c :: sp2) ++ '[' :: m :: ']' :: tl) := by
      rw [heq, dropWhile_append_all w _ hw]
      rw [List.dropWhile_cons_of_neg (by simp [hbws])]
    unfold isCompletedTask
    rw [hd2]
    simp only [Bool.and_eq_true]
    refine ⟨⟨?_, ?_⟩, ?_⟩
    · rcases hb with rfl | rfl | rfl <;> decide
    · rw [List.cons_append]
      exact hcws
    · have hdrop : ((c :: sp2) ++ '[' :: m :: ']' :: tl).dropWhile jsIsWs =
          '[' :: m :: ']' :: tl := by
        rw [dropWhile_append_all (c :: sp2) _ hsp]
        rw [List.dropWhile_cons_of_neg (by decide)]
      rw [hdrop]
      rcases hm with rfl | rfl <;> simp [startsWithToken]

/-! ## Claim C1 -/

/-- Counterexample for claim C1 as stated: with `incompleteSymbols = ["! "]`
(note the trailing space) and `invertRule = false`, the marker `"!"` is
non-blank and is not literally a member of `incompleteSymbols`, so the
claim says the item is hidden; but the code trims every symbol before
matching, `"!"` becomes an effective exception, and the generated rule set
does not hide it. -/
theorem c1_counterexample :
    hidesMarker ⟨true, ["! "], some false⟩ "!" = false ∧
    ("!" : String) ≠ " " ∧ ("!" : String) ∉ (["! "] : List String) := by
  decide

/-- Claim C1 (amended): in normal mode the membership test is taken over
the trimmed, empty-filtered `incompleteSymbols` list. A task item is
hidden iff its marker is non-blank and not a member of that effective
list; a blank marker is never hidden; a marker equal to a member of the
effective list is never hidden. -/
theorem c1_normal_mode (s : TaskHiderSettings)
    (hinv : s.invertRule.getD false = false) :
    (∀ m, hidesMarker s m = true ↔ (m ≠ " " ∧ m ∉ trimFilter s.incompleteSymbols)) ∧
    hidesMarker s " " = false ∧
    (∀ m ∈ trimFilter s.incompleteSymbols, hidesMarker s m = false) := by
  refine ⟨hidesMarker_normal s hinv, ?_, ?_⟩
  · cases he : hidesMarker s " " with
    | false => rfl
    | true => exact absurd ((hidesMarker_normal s hinv " ").mp he).1 (by simp)
  · intro m hm
    cases he : hidesMarker s m with
    | false => rfl
    | true => exact absurd ((hidesMarker_normal s hinv m).mp he).2 (not_not_intro hm)

/-- Witness for claim C1: a concrete instantiation of `c1_normal_mode`. -/
theorem c1_normal_mode_witness :
    hidesMarker ⟨true, ["!"], some false⟩ "?" = true ∧
    hidesMarker ⟨true, ["!"], some false⟩ " " = false ∧
    hidesMarker ⟨true, ["!"], some false⟩ "!" = false := by
  have h := c1_normal_mode ⟨true, ["!"], some false⟩ (by decide)
  exact ⟨(h.1 "?").mpr (by decide), h.2.1, h.2.2 "!" (by decide)⟩

/-! ## Claim C2 -/

/-- Counterexample for claim C2 as stated: with `incompleteSymbols = ["! "]`
and `invertRule = true`, the marker `"!"` is not literally a member of
`incompleteSymbols`, yet the generated rule set hides it, because the code
matches against the trimmed symbol `"!"`. -/
theorem c2_counterexample :
    hidesMarker ⟨true, ["! "], some true⟩ "!" = true ∧
    ("!" : String) ∉ (["! "] : List String) := by
  decide

/-- Claim C2 (amended): in invert mode a task item is hidden iff its
marker is a member of the trimmed, empty-filtered `incompleteSymbols`
list; when that effective list is empty the generated CSS is the empty
string and no marker is hidden. -/
theorem c2_invert_mode (s : TaskHiderSettings)
    (hinv : s.invertRule.getD false = true) :
    (∀ m, hidesMarker s m = true ↔ m ∈ trimFilter s.incompleteSymbols) ∧
    (trimFilter s.incompleteSymbols = [] →
      (∀ m, hidesMarker s m = false) ∧ buildDynamicCss s = "") := by
  refine ⟨hidesMarker_invert s hinv, ?_⟩
  intro hempty
  constructor
  · intro m
    cases he : hidesMarker s m with
    | false => rfl
    | true =>
      have hmem := (hidesMarker_invert s hinv m).mp he
      rw [hempty] at hmem
      simp at hmem
  · simp [buildDynamicCss, exceptionOnly, hempty, hinv]

/-- Witness for claim C2: a concrete instantiation of `c2_invert_mode`. -/
theorem c2_invert_mode_witness :
    hidesMarker ⟨true, ["!"], some true⟩ "!" = true ∧
    buildDynamicCss ⟨true, [], some true⟩ = "" := by
  have h1 := c2_invert_mode ⟨true, ["!"], some true⟩ (by decide)
  have h2 := c2_invert_mode ⟨true, [], some true⟩ (by decide)
  exact ⟨(h1.1 "!").mpr (by decide), (h2.2 (by decide)).2⟩

/-! ## Claim C3 -/

/-- Claim C3: the decoration-based strategy produces no hidden line when
`hiddenState` is false; when `hiddenState` is true every completed task
line is hidden; and on the document
`["- [x] Task", "  - sub A", "  - sub B", "- [ ] Other"]` with
`hiddenState = true` and `hideSubBullets = true` exactly lines 1-3 are
hidden and line 4 is not. -/
theorem c3_decoration_strategy :
    (∀ (s : DecoSettings) (doc : List String), s.hiddenState = false →
      buildLineDecorations s doc = []) ∧
    (∀ (s : DecoSettings) (doc : List String) (i : Nat) (t : String),
      s.hiddenState = true → doc[i]? = some t → isCompletedTask t = true →
      (i + 1) ∈ buildLineDecorations s doc) ∧
    buildLineDecorations ⟨true, true, true⟩
      ["- [x] Task", "  - sub A", "  - sub B", "- [ ] Other"] = [1, 2, 3] ∧
    4 ∉ buildLineDecorations ⟨true, true, true⟩
      ["- [x] Task", "  - sub A", "  - sub B", "- [ ] Other"] := by
  refine ⟨?_, ?_, by decide, by decide⟩
  · intro s doc hs
    simp [buildLineDecorations, hs]
  · intro s doc i t hs hget hc
    unfold buildLineDecorations
    rw [if_pos hs]
    have hmem := mem_buildLineDecorationsGo s.hideSubBullets doc 1 i t hget hc
    rwa [Nat.add_comm] at hmem

/-- Witness for claim C3: a concrete instantiation of
`c3_decoration_strategy`. -/
theorem c3_decoration_strategy_witness :
    buildLineDecorations ⟨false, true, true⟩ ["- [x] Task"] = [] ∧
    (0 + 1) ∈ buildLineDecorations ⟨true, false, false⟩ ["- [x] a"] := by
  exact ⟨c3_decoration_strategy.1 ⟨false, true, true⟩ ["- [x] Task"] rfl,
    c3_decoration_strategy.2.1 ⟨true, false, false⟩ ["- [x] a"] 0 "- [x] a" rfl rfl (by decide)⟩

/-! ## Claim C5 -/

/-- Claim C5: saving any settings value and loading it back yields every
defined field unchanged (`hiddenState`, `incompleteSymbols`, and a defined
`invertRule`), while an omitted `invertRule` resolves to its default
(`some false`, expressed by `getD false`); and a previously stored blob
containing only `hiddenState` loads with that value and every newer field
at its default. -/
theorem c5_settings_roundtrip :
    (∀ s : TaskHiderSettings,
      loadSettings (some (blobOfSettings s)) =
        { hiddenState := s.hiddenState, incompleteSymbols := s.incompleteSymbols,
          invertRule := some (s.invertRule.getD false) }) ∧
    (∀ b : Bool,
      loadSettings (some ⟨some (JsVal.jsBool b), none, none⟩) =
        { DEFAULT_SETTINGS with hiddenState := b }) := by
  constructor
  · intro s
    obtain ⟨h, syms, inv⟩ := s
    cases inv <;> rfl
  · intro b
    rfl

/-! ## Claim C6 -/

/-- Counterexample for claim C6 as stated, on both of its failing parts:
a rejected read propagates out of `loadSettings` in `src/main.ts`
(`Except.error` is returned to the caller, while the claim says `load()`
never throws, including for a throwing read); and the `Object.assign`
revision (`src/unnamed/part_001` lines 48-50) keeps a wrongly typed
`hiddenState` as-is instead of yielding the documented default `true`. -/
theorem c6_counterexample :
    loadSettingsResult (Except.error ()) = Except.error () ∧
    (loadSettingsAssign (some ⟨some JsVal.jsOther, none, none⟩)).hiddenState
      = JsVal.jsOther ∧
    JsVal.jsOther ≠ JsVal.jsBool true := by
  exact ⟨rfl, rfl, by decide⟩

/-- Claim C6 (amended): the fail-soft behaviour is per revision. In
`src/main.ts`, for every successfully read blob `loadSettings` does not
throw and recovers per field — each correctly typed field keeps its
stored value and each missing or wrongly typed field falls back to its
own default (partial recovery, not all-or-nothing, including a fully
absent blob). In the `Object.assign` revision of `src/unnamed/part_001`
there is no type checking at all: every field present on the blob is kept
as-is whatever its type, and only missing fields (or a fully absent blob)
resolve to the documented defaults. In both revisions an exception from
the underlying read propagates out of `loadSettings`; only the legacy
revision's `loadHiddenState` catches it and falls back to the default. -/
theorem c6_load_fails_soft :
    (∀ d : Option RawBlob, loadSettingsResult (Except.ok d) = Except.ok (loadSettings d)) ∧
    loadSettings none = DEFAULT_SETTINGS ∧
    (∀ d : RawBlob,
      (∀ b, d.hiddenState = some (JsVal.jsBool b) → (loadSettings (some d)).hiddenState = b) ∧
      ((∀ b, d.hiddenState ≠ some (JsVal.jsBool b)) →
        (loadSettings (some d)).hiddenState = DEFAULT_SETTINGS.hiddenState) ∧
      (∀ l, d.incompleteSymbols = some (JsVal.jsArr l) →
        (loadSettings (some d)).incompleteSymbols = l) ∧
      ((∀ l, d.incompleteSymbols ≠ some (JsVal.jsArr l)) →
        (loadSettings (some d)).incompleteSymbols = DEFAULT_SETTINGS.incompleteSymbols) ∧
      (∀ b, d.invertRule = some (JsVal.jsBool b) → (loadSettings (some d)).invertRule = some b) ∧
      ((∀ b, d.invertRule ≠ some (JsVal.jsBool b)) →
        (loadSettings (some d)).invertRule = DEFAULT_SETTINGS.invertRule)) ∧
    loadHiddenState (Except.error ()) = true ∧
    (∀ d : Option DecoRawBlob,
      loadSettingsAssignResult (Except.ok d) = Except.ok (loadSettingsAssign d)) ∧
    loadSettingsAssign none = ⟨JsVal.jsBool true, JsVal.jsBool true, JsVal.jsBool false⟩ ∧
    (∀ d : DecoRawBlob,
      (∀ v, d.hiddenState = some v → (loadSettingsAssign (some d)).hiddenState = v) ∧
      (d.hiddenState = none → (loadSettingsAssign (some d)).hiddenState = JsVal.jsBool true) ∧
      (∀ v, d.showStatusBar = some v → (loadSettingsAssign (some d)).showStatusBar = v) ∧
      (d.showStatusBar = none →
        (loadSettingsAssign (some d)).showStatusBar = JsVal.jsBool true) ∧
      (∀ v, d.hideSubBullets = some v → (loadSettingsAssign (some d)).hideSubBullets = v) ∧
      (d.hideSubBullets = none →
        (loadSettingsAssign (some d)).hideSubBullets = JsVal.jsBool false)) ∧
    loadSettingsAssignResult (Except.error ()) = Except.error () := by
  refine ⟨fun d => rfl, rfl, ?_, rfl, fun d => rfl, rfl, ?_, rfl⟩
  case refine_2 =>
    intro d
    obtain ⟨dh, ds, db⟩ := d
    refine ⟨?_, ?_, ?_, ?_, ?_, ?_⟩
    · intro v hv
      subst hv
      rfl
    · intro hn
      subst hn
      rfl
    · intro v hv
      subst hv
      rfl
    · intro hn
      subst hn
      rfl
    · intro v hv
      subst hv
      rfl
    · intro hn
      subst hn
      rfl
  intro d
  obtain ⟨dh, di, dv⟩ := d
  refine ⟨?_, ?_, ?_, ?_, ?_, ?_⟩
  · intro b hb
    subst hb
    rfl
  · intro hall
    cases dh with
    | none => rfl
    | some v =>
      cases v with
      | jsBool b => exact absurd rfl (hall b)
      | jsArr l => rfl
      | jsOther => rfl
  · intro l hl
    subst hl
    rfl
  · intro hall
    cases di with
    | none => rfl
    | some v =>
      cases v with
      | jsBool b => rfl
      | jsArr l => exact absurd rfl (hall l)
      | jsOther => rfl
  · intro b hb
    subst hb
    rfl
  · intro hall
    cases dv with
    | none => rfl
    | some v =>
      cases v with
      | jsBool b => exact absurd rfl (hall b)
      | jsArr l => rfl
      | jsOther => rfl

/-- Witness for claim C6 (amended): under `src/main.ts` a blob with a
wrongly typed `hiddenState`, a well-typed `incompleteSymbols` and a
missing `invertRule` recovers per field; under the `Object.assign`
revision a wrongly typed present `hiddenState` is kept as-is, a missing
`showStatusBar` defaults, and a present `hideSubBullets` is kept. -/
theorem c6_load_fails_soft_witness :
    (loadSettings (some ⟨some JsVal.jsOther, some (JsVal.jsArr ["a"]), none⟩)).hiddenState
      = true ∧
    (loadSettings (some ⟨some JsVal.jsOther, some (JsVal.jsArr ["a"]), none⟩)).incompleteSymbols
      = ["a"] ∧
    (loadSettings (some ⟨some JsVal.jsOther, some (JsVal.jsArr ["a"]), none⟩)).invertRule
      = some false ∧
    (loadSettingsAssign (some ⟨some JsVal.jsOther, none, some (JsVal.jsBool true)⟩)).hiddenState
      = JsVal.jsOther ∧
    (loadSettingsAssign (some ⟨some JsVal.jsOther, none, some (JsVal.jsBool true)⟩)).showStatusBar
      = JsVal.jsBool true ∧
    (loadSettingsAssign (some ⟨some JsVal.jsOther, none, some (JsVal.jsBool true)⟩)).hideSubBullets
      = JsVal.jsBool true := by
  have h := c6_load_fails_soft.2.2.1 ⟨some JsVal.jsOther, some (JsVal.jsArr ["a"]), none⟩
  have h2 := c6_load_fails_soft.2.2.2.2.2.2.1
    ⟨some JsVal.jsOther, none, some (JsVal.jsBool true)⟩
  exact ⟨h.2.1 (by decide), h.2.2.1 ["a"] rfl, h.2.2.2.2.2 (by decide),
    h2.1 JsVal.jsOther rfl, h2.2.2.2.1 rfl, h2.2.2.2.2.1 (JsVal.jsBool true) rfl⟩

/-! ## Claim C8 -/

/-- Claim C8: every symbol value inserted into a generated attribute match
is escaped so that the attribute-value token never terminates early — the
escaped text of an arbitrary string always passes the token scan — and for
`incompleteSymbols = ["\"", "\\"]` the two generated attribute selectors
carry the properly escaped values. -/
theorem c8_selector_escaping :
    (∀ v : String, cssTokenScan (escapeCssValue v).data = true) ∧
    exceptionOnly ⟨true, ["\"", "\\"], some true⟩ =
      ["[data-task=\"\\\"\"]", "[data-task=\"\\\\\"]"] ∧
    cssTokenScan (escapeCssValue "\"").data = true ∧
    cssTokenScan (escapeCssValue "\\").data = true := by
  refine ⟨?_, by decide, by decide, by decide⟩
  intro v
  exact cssTokenScan_escape v.data

/-! ## Claim C9 -/

/-- Claim C9: toggling twice restores the settings (in particular
`hiddenState`) and regenerates a rule set equal to the one generated from
the original settings; a single toggle flips `hiddenState`, sets the
global body-class marker and the status text from the new state, persists
the settings, and regenerates the dynamic CSS from them. -/
theorem c9_toggle_idempotence :
    ∀ st : PluginState,
      (toggleCompletedTaskView (toggleCompletedTaskView st)).settings = st.settings ∧
      (toggleCompletedTaskView (toggleCompletedTaskView st)).settings.hiddenState
        = st.settings.hiddenState ∧
      (toggleCompletedTaskView (toggleCompletedTaskView st)).dynamicCss
        = buildDynamicCss st.settings ∧
      (toggleCompletedTaskView st).settings.hiddenState = (! st.settings.hiddenState) ∧
      (toggleCompletedTaskView st).bodyClassHidden
        = (toggleCompletedTaskView st).settings.hiddenState ∧
      (toggleCompletedTaskView st).statusText =
        (if (toggleCompletedTaskView st).settings.hiddenState then "Hiding Completed Tasks"
         else "Showing Completed Tasks") ∧
      (toggleCompletedTaskView st).persisted
        = some (blobOfSettings (toggleCompletedTaskView st).settings) ∧
      (toggleCompletedTaskView st).dynamicCss
        = buildDynamicCss (toggleCompletedTaskView st).settings := by
  intro st
  obtain ⟨⟨h, syms, inv⟩, bc, txt, p, css⟩ := st
  simp [toggleCompletedTaskView, Bool.not_not]

/-! ## Claim C10 -/

/-- Claim C10: for every settings value, invert mode included, the blank
marker is never hidden — trimming can never produce the blank string, so
a blank or whitespace-only entry of `incompleteSymbols` never reaches the
effective exception list and never yields a hide rule. -/
theorem c10_blank_marker_never_hidden :
    ∀ s : TaskHiderSettings,
      hidesMarker s " " = false ∧ " " ∉ trimFilter s.incompleteSymbols := by
  intro s
  have hmem : (" " : String) ∉ trimFilter s.incompleteSymbols :=
    fun hm => trimFilter_ne_blank hm rfl
  refine ⟨?_, hmem⟩
  cases hinv : s.invertRule.getD false with
  | false =>
    cases he : hidesMarker s " " with
    | false => rfl
    | true => exact absurd ((hidesMarker_normal s hinv " ").mp he).1 (by simp)
  | true =>
    cases he : hidesMarker s " " with
    | false => rfl
    | true => exact absurd ((hidesMarker_invert s hinv " ").mp he) hmem

/-- Witness for claim C4 (amended): a concrete instantiation of
`c4_descendant_block` showing a more-indented non-blank line right after
the task line belongs to the block. -/
theorem c4_descendant_block_witness : 2 ∈ subBullets 0 2 ["  - a"] := by
  refine (c4_descendant_block 0 ["  - a"] 2 2).mpr ⟨0, "  - a", rfl, rfl, by decide, by decide, ?_⟩
  intro m v hm
  exact absurd hm (Nat.not_lt_zero m)

/-- Witness for claim C7 (amended): a concrete instantiation of
`c7_completed_line_match` on the line `"- [x] done"`. -/
theorem c7_completed_line_match_witness : isCompletedTask "- [x] done" = true := by
  refine (c7_completed_line_match.1 "- [x] done").mpr
    ⟨[], [' '], [' ', 'd', 'o', 'n', 'e'], '-', 'x', by decide, ?_, by decide, by decide, ?_, by decide⟩
  · intro c hc
    simp at hc
  · intro c hc
    simp at hc
    subst hc
    rfl
